import Mathlib

/-!
Verification of the Calendar-Custom-Color browser extension core logic:
the ICS parser (popup.js, class Calendar), the settings persistence
operations (popup.js, removeCalendar and the settings-form submit handler),
and the content-script coloring pass (content.js, applyCustomColors with
its helpers keyToDate, formatICSDate).

Strings are modelled as lists of characters (`Str`), so that theorems can
be proved by structural induction on string contents.  JavaScript numbers
that flow through bitwise operators are modelled as `Int` with explicit
32-bit wrapping (ToInt32 / ToUint32 of the ECMAScript spec).  A JavaScript
value that may be `undefined` is modelled as an `Option`.
-/

set_option autoImplicit false

namespace CalColor

/-- Character-list model of JavaScript strings. -/
abbrev Str := List Char

/-- Embed a Lean string literal as a `Str`. -/
def strOf (s : String) : Str := s.data

/-- JavaScript `String.prototype.split` with a one-character separator:
splits on every occurrence of `c`; always returns a nonempty list. -/
def splitOnChar (c : Char) : Str → List Str
  | [] => [[]]
  | x :: xs =>
    if x = c then [] :: splitOnChar c xs
    else
      match splitOnChar c xs with
      | [] => [[x]]
      | y :: ys => (x :: y) :: ys

/-- JavaScript `data.split(/\r?\n/)`: each separator is a line feed
optionally preceded by a carriage return; a carriage return not followed
by a line feed is ordinary text. -/
def splitLines : Str → List Str
  | [] => [[]]
  | '\n' :: xs => [] :: splitLines xs
  | '\r' :: '\n' :: xs => [] :: splitLines xs
  | x :: xs =>
    match splitLines xs with
    | [] => [[x]]
    | y :: ys => (x :: y) :: ys

/-- JavaScript `line.split(":", 2)` destructured as `const [key, value]`:
the full colon-split is computed and truncated to its first two fields, so
`key` is the text before the first colon and `value` is the text between
the first and second colons (`none` models `undefined` when the line has
no colon). -/
def jsSplit2 (line : Str) : Str × Option Str :=
  match splitOnChar ':' line with
  | [] => (line, none)
  | k :: rest => (k, rest.head?)

/-- One parsed VEVENT, as built by `Calendar.parseICS` in popup.js.
Fields assigned from a possibly-undefined `value` are `Option`s; `«end»`
is the `end` property (a reserved word in Lean). -/
structure ICSEvent where
  start : Option Str := none
  «end» : Option Str := none
  name : Option Str := none
  calendarTitle : Option Str := none
  deriving DecidableEq

/-- Mutable state of the `Calendar` object during `parseICS`:
`this.title`, the `currentEvent` accumulator, and `this.events`. -/
structure ParseState where
  title : Option Str
  current : Option ICSEvent
  events : List ICSEvent
  deriving DecidableEq

/-- One iteration of the `lines.forEach` body of `Calendar.parseICS`
(popup.js lines 27-46). -/
def parseLine (st : ParseState) (line : Str) : ParseState :=
  let kv := jsSplit2 line
  let key := kv.1
  let value := kv.2
  if key = strOf "X-WR-CALNAME" then
    { st with title := value }
  else if line = strOf "BEGIN:VEVENT" then
    { st with current := some {} }
  else if line = strOf "END:VEVENT" then
    match st.current with
    | some ev =>
      { st with events := st.events ++ [{ ev with calendarTitle := st.title }],
                current := none }
    | none => st
  else if key = strOf "DTSTART;VALUE=DATE" then
    match st.current with
    | some ev => { st with current := some { ev with start := value } }
    | none => st
  else if key = strOf "DTEND;VALUE=DATE" then
    match st.current with
    | some ev => { st with current := some { ev with «end» := value } }
    | none => st
  else if key = strOf "SUMMARY" then
    match st.current with
    | some ev => { st with current := some { ev with name := value } }
    | none => st
  else
    st

/-- Fold `parseLine` over a line list from a given state. -/
def parseLines (st : ParseState) (lines : List Str) : ParseState :=
  lines.foldl parseLine st

/-- State of a freshly constructed `Calendar` (the constructor sets
`title = ""` and `events = []`; no accumulator is open). -/
def initCalendarState : ParseState :=
  { title := some [], current := none, events := [] }

/-- `Calendar.parseICS(data)` on a freshly constructed `Calendar`
(`parseICS` resets `events = []` and the accumulator to absent). -/
def parseICS (data : Str) : ParseState :=
  parseLines initCalendarState (splitLines data)

/-! ## content.js: date codec -/

/-- Decimal rendering of a natural number, as JavaScript template
interpolation renders a nonnegative integral number. -/
def natStr (n : Nat) : Str := (Nat.repr n).data

/-- Decimal rendering of an integer. -/
def intStr (i : Int) : Str :=
  if i < 0 then '-' :: natStr (-i).toNat else natStr i.toNat

/-- ECMAScript ToUint32: the number modulo 2^32, as the bit pattern. -/
def toUint32 (n : Int) : Nat := (n % 4294967296).toNat

/-- ECMAScript ToInt32: the 32-bit two's-complement reading of ToUint32. -/
def toInt32 (n : Int) : Int :=
  let u := toUint32 n
  if u < 2147483648 then (u : Int) else (u : Int) - 4294967296

/-- JavaScript `a >> b`: arithmetic (sign-extending) right shift of the
32-bit value, i.e. floor division by a power of two. -/
def jsShr (a b : Int) : Int := Int.fdiv (toInt32 a) (2 ^ (toUint32 b % 32))

/-- JavaScript `a & b`: bitwise AND of the 32-bit patterns, read back as
a signed 32-bit value. -/
def jsBitAnd (a b : Int) : Int := toInt32 ((toUint32 a) &&& (toUint32 b))

/-- `keyToDate` from content.js (lines 84-90): unpack a `data-datekey`
number into the canonical unpadded `"Y-M-D"` string. -/
def keyToDate (dataDateKey : Int) : Str :=
  let yearOffset := jsBitAnd (jsShr dataDateKey 9) 255
  let month := jsBitAnd (jsShr dataDateKey 5) 15
  let day := jsBitAnd dataDateKey 31
  let year := 1970 + yearOffset
  intStr year ++ '-' :: intStr month ++ '-' :: intStr day

/-- Whitespace skipped by JavaScript `parseInt` (the common ASCII cases). -/
def isJsSpace (c : Char) : Bool :=
  c == ' ' || c == '\t' || c == '\n' || c == '\r' || c == '\x0b' || c == '\x0c'

/-- ASCII decimal digit test. -/
def isDigit (c : Char) : Bool := '0' ≤ c && c ≤ '9'

/-- Value of a string of decimal digits. -/
def digitsToNat (s : Str) : Nat :=
  s.foldl (fun a c => a * 10 + (c.toNat - '0'.toNat)) 0

/-- Longest leading digit run, `none` when there is none (NaN). -/
def parseDigits (s : Str) : Option Nat :=
  let ds := s.takeWhile isDigit
  if ds.isEmpty then none else some (digitsToNat ds)

/-- JavaScript `parseInt(s, 10)`: skip whitespace, optional sign, then the
longest decimal-digit prefix; `none` models NaN. -/
def jsParseInt (s : Str) : Option Int :=
  let t := s.dropWhile isJsSpace
  match t with
  | '-' :: rest => (parseDigits rest).map (fun n => -(n : Int))
  | '+' :: rest => (parseDigits rest).map (fun n => (n : Int))
  | _ => (parseDigits t).map (fun n => (n : Int))

/-- Template interpolation of a `parseInt` result (NaN renders "NaN"). -/
def renderNum (v : Option Int) : Str :=
  match v with
  | none => strOf "NaN"
  | some i => intStr i

/-- `formatICSDate` from content.js (lines 115-121): an ICS `YYYYMMDD`
string (possibly undefined) to the canonical unpadded `"Y-M-D"` string.
`substring(0,4)`, `substring(4,6)`, `substring(6,8)` become
`take 4`, `(drop 4).take 2`, `(drop 6).take 2`. -/
def formatICSDate (icsDate : Option Str) : Str :=
  match icsDate with
  | none => []
  | some s =>
    if s.length < 8 then []
    else
      renderNum (jsParseInt (s.take 4)) ++
        '-' :: renderNum (jsParseInt ((s.drop 4).take 2)) ++
        '-' :: renderNum (jsParseInt ((s.drop 6).take 2))

/-! ## content.js: color resolution and the annotator pass -/

/-- JavaScript truthiness of a string-or-undefined value: `undefined` and
the empty string are falsy. -/
def jsTruthy (v : Option Str) : Bool :=
  match v with
  | none => false
  | some s => !s.isEmpty

/-- Property key used for `obj[k]` when `k` may be `undefined` (JavaScript
stringifies the key, so `undefined` reads the key `"undefined"`). -/
def jsKey (k : Option Str) : Str :=
  match k with
  | some s => s
  | none => strOf "undefined"

/-- The `for...of` loop of `applyCustomColors` (content.js lines 54-60):
the color of the first event whose converted start date equals `dateStr`
and whose calendar has a truthy entry in `calendarColors`. -/
def firstOverride (calendarColors : List (Str × Str)) (dateStr : Str) :
    List ICSEvent → Option Str
  | [] => none
  | ev :: rest =>
    let c := List.lookup (jsKey ev.calendarTitle) calendarColors
    if formatICSDate ev.start = dateStr ∧ jsTruthy c = true then c
    else firstOverride calendarColors dateStr rest

/-- Color resolution for one date (content.js lines 49-60): start from
`dayColors[dayName] || null`, then let the first matching event override.
The weekday naming (`getWeekDayName`, which delegates to the host
JavaScript `Date` implementation) is passed in as a function. -/
def resolveColor (weekdayOf : Str → Str) (dayColors calendarColors : List (Str × Str))
    (calendarEvents : List ICSEvent) (dateStr : Str) : Option Str :=
  let dayName := weekdayOf dateStr
  let d := List.lookup dayName dayColors
  let initial := if jsTruthy d then d else none
  match firstOverride calendarColors dateStr calendarEvents with
  | some c => some c
  | none => initial

/-- A day-cell element as the annotator sees it: its two possible date
attributes (a `data-datekey` attribute string still to be `parseInt`ed, or
a raw `data-date` string), the `dataset.customColored` marker, and the two
inline style properties the script writes (empty string = unset). -/
structure Cell where
  datekeyAttr : Option Str
  dataDate : Option Str
  marker : Bool
  bg : Str
  opacity : Str
  deriving DecidableEq

/-- Date-string derivation for a cell (content.js lines 39-45).  A
non-numeric `data-datekey` gives `parseInt = NaN` and ToInt32(NaN) = 0,
which `.getD 0` reproduces. -/
def cellDateStr (c : Cell) : Str :=
  match c.datekeyAttr with
  | some a => keyToDate ((jsParseInt a).getD 0)
  | none =>
    match c.dataDate with
    | some d => d
    | none => []

/-- The per-cell body of `applyCustomColors` (content.js lines 38-74):
derive the date, resolve a color, then set or clear the styling guarded by
the `customColored` marker. -/
def applyCell (weekdayOf : Str → Str) (dark : Bool)
    (dayColors calendarColors : List (Str × Str)) (calendarEvents : List ICSEvent)
    (c : Cell) : Cell :=
  let dateStr := cellDateStr c
  if dateStr.isEmpty then c
  else
    let appliedColor := resolveColor weekdayOf dayColors calendarColors calendarEvents dateStr
    if jsTruthy appliedColor then
      if c.marker then c
      else { c with marker := true, bg := appliedColor.getD [],
                    opacity := if dark then strOf "0.7" else strOf "0.9" }
    else if c.marker then
      { c with bg := [], opacity := [], marker := false }
    else c

/-- One full annotator pass over the visible day cells. -/
def applyCustomColors (weekdayOf : Str → Str) (dark : Bool)
    (dayColors calendarColors : List (Str × Str)) (calendarEvents : List ICSEvent)
    (cells : List Cell) : List Cell :=
  cells.map (applyCell weekdayOf dark dayColors calendarColors calendarEvents)

/-! ## popup.js: settings persistence -/

/-- A `{title, events}` record as persisted in `loadedCalendars`. -/
structure StoredCalendar where
  title : Option Str
  events : List ICSEvent
  deriving DecidableEq

/-- The persisted Settings Document (the four `chrome.storage.sync` keys). -/
structure SettingsDoc where
  dayColors : List (Str × Str) := []
  calendarColors : List (Str × Str) := []
  calendarEvents : List ICSEvent := []
  loadedCalendars : List StoredCalendar := []
  deriving DecidableEq

/-- The flattening loop of the settings-form submit handler (popup.js
lines 225-228): `calendarEvents = calendarEvents.concat(cal.getEvents())`
over the loaded calendars. -/
def flattenEvents (cals : List StoredCalendar) : List ICSEvent :=
  cals.foldl (fun acc cal => acc ++ cal.events) []

/-- The derived-cache invariant of the Settings Document: `calendarEvents`
is the concatenation, in load order, of the events of `loadedCalendars`. -/
def eventsCacheInvariant (st : SettingsDoc) : Prop :=
  st.calendarEvents = flattenEvents st.loadedCalendars

/-- `removeCalendar(index)` from popup.js (lines 148-164): guard the
index, splice the working list, and return the spliced list together with
the payload of the single `chrome.storage.sync.set({loadedCalendars})`
call (`none` when the guard returned early and nothing is written). -/
def removeCalendar (index : Int) (cals : List StoredCalendar) :
    List StoredCalendar × Option (List StoredCalendar) :=
  if index < 0 ∨ (cals.length : Int) ≤ index then (cals, none)
  else
    let cals' := cals.eraseIdx index.toNat
    (cals', some (cals'.map (fun cal => { title := cal.title, events := cal.events })))

/-- Effect of a `chrome.storage.sync.set({loadedCalendars})` call on the
persisted document: only that key is replaced (`set` merges keys). -/
def setLoadedCalendars (st : SettingsDoc) (w : Option (List StoredCalendar)) : SettingsDoc :=
  match w with
  | none => st
  | some cs => { st with loadedCalendars := cs }

/-- The settings-form submit handler's storage write (popup.js lines
224-237): all four keys are written, `calendarEvents` recomputed in full. -/
def saveSettings (dayColors calendarColors : List (Str × Str))
    (cals : List StoredCalendar) (st : SettingsDoc) : SettingsDoc :=
  { st with dayColors := dayColors, calendarColors := calendarColors,
            calendarEvents := flattenEvents cals, loadedCalendars := cals }

/-! ## Scenario constants and spec-side reference definitions -/

/-- Concrete event used for the C1 scenario. -/
def evC1 : ICSEvent :=
  { start := some (strOf "20240115"), calendarTitle := some (strOf "A") }

/-- Concrete persisted settings document for the C1 scenario: one loaded
calendar "A" whose single event is (consistently) cached in
`calendarEvents`. -/
def stC1 : SettingsDoc :=
  { calendarColors := [(strOf "A", strOf "green")],
    calendarEvents := [evC1],
    loadedCalendars := [{ title := some (strOf "A"), events := [evC1] }] }

/-- Color resolution exactly as the C3 spec sentence states it (the
refinement reference, written from the spec's words): the calendar color
of the first event in list order whose converted start date equals the
target date and whose `calendarTitle` has an entry in `calendarColors`;
otherwise the weekday entry of `dayColors` if present; otherwise none. -/
def resolveColorSpec (weekdayOf : Str → Str) (dayColors calendarColors : List (Str × Str))
    (calendarEvents : List ICSEvent) (dateStr : Str) : Option Str :=
  match calendarEvents.find? (fun ev =>
      formatICSDate ev.start == dateStr
        && (List.lookup (jsKey ev.calendarTitle) calendarColors).isSome) with
  | some ev => List.lookup (jsKey ev.calendarTitle) calendarColors
  | none => List.lookup (weekdayOf dateStr) dayColors

/-- Amended spec-side resolution: map entries whose color value is the
empty string are ignored (JavaScript truthiness), for both
`calendarColors` and `dayColors`. -/
def resolveColorSpecTruthy (weekdayOf : Str → Str) (dayColors calendarColors : List (Str × Str))
    (calendarEvents : List ICSEvent) (dateStr : Str) : Option Str :=
  match calendarEvents.find? (fun ev =>
      formatICSDate ev.start == dateStr
        && jsTruthy (List.lookup (jsKey ev.calendarTitle) calendarColors)) with
  | some ev => List.lookup (jsKey ev.calendarTitle) calendarColors
  | none =>
    let d := List.lookup (weekdayOf dateStr) dayColors
    if jsTruthy d then d else none

/-- Weekday oracle used by the C3 scenario. -/
def wdC3 : Str → Str := fun _ => strOf "Monday"

/-- Calendar-color map for the C3 scenario: calendar "A" has an entry
whose color value is the empty string, calendar "B" a red one. -/
def ccC3 : List (Str × Str) := [(strOf "A", []), (strOf "B", strOf "red")]

/-- Events for the C3 scenario: both on the target date, "A" first. -/
def evsC3 : List ICSEvent :=
  [{ start := some (strOf "20240115"), calendarTitle := some (strOf "A") },
   { start := some (strOf "20240115"), calendarTitle := some (strOf "B") }]

/-- Weekday oracle used by the C8 witness. -/
def wdC8 : Str → Str := fun _ => strOf "Sunday"

/-- Marked, styled cell used by the C8 witness. -/
def cellC8 : Cell :=
  { datekeyAttr := none, dataDate := some (strOf "2024-1-15"),
    marker := true, bg := strOf "blue", opacity := strOf "0.9" }

/-- A field string usable in a hand-built single-line ICS property: no
colon (the value would be truncated), no line break. -/
def cleanStr (s : Str) : Prop := ':' ∉ s ∧ '\n' ∉ s ∧ '\r' ∉ s

/-- The five lines of one hand-built VEVENT block with fields
`(start, end, summary)`. -/
def blockLines (f : Str × Str × Str) : List Str :=
  [strOf "BEGIN:VEVENT",
   strOf "DTSTART;VALUE=DATE" ++ ':' :: f.1,
   strOf "DTEND;VALUE=DATE" ++ ':' :: f.2.1,
   strOf "SUMMARY" ++ ':' :: f.2.2,
   strOf "END:VEVENT"]

/-- The lines of the hand-built document: one `X-WR-CALNAME` line first,
then the N VEVENT blocks in order. -/
def icsDocLines (t : Str) (fs : List (Str × Str × Str)) : List Str :=
  (strOf "X-WR-CALNAME" ++ ':' :: t) :: (fs.map blockLines).flatten

/-- The hand-built ICS document text: every line terminated by LF. -/
def icsDoc (t : Str) (fs : List (Str × Str × Str)) : Str :=
  ((icsDocLines t fs).map (fun l => l ++ ['\n'])).flatten

/-- The event the parser should produce for block fields `f` under
calendar title `T`. -/
def evOf (T : Option Str) (f : Str × Str × Str) : ICSEvent :=
  { start := some f.1, «end» := some f.2.1, name := some f.2.2, calendarTitle := T }

instance (s : Str) : Decidable (cleanStr s) := by
  unfold cleanStr
  exact inferInstance

example : splitLines (strOf "a\r\nb\nc") = [strOf "a", strOf "b", strOf "c"] := by decide
example : jsSplit2 (strOf "SUMMARY:a:b") = (strOf "SUMMARY", some (strOf "a")) := by decide
example : jsSplit2 (strOf "nocolon") = (strOf "nocolon", none) := by decide
example : (parseICS (strOf "X-WR-CALNAME:T\nBEGIN:VEVENT\nSUMMARY:x\nEND:VEVENT")).events =
    [{ name := some (strOf "x"), calendarTitle := some (strOf "T") }] := by decide
example : keyToDate 27695 = strOf "2024-1-15" := by decide
example : formatICSDate (some (strOf "20240115")) = strOf "2024-1-15" := by decide
example : formatICSDate (some (strOf "2024")) = [] := by decide
example : jsParseInt (strOf "007a") = some 7 := by decide
example : keyToDate ((jsParseInt (strOf "abc")).getD 0) = strOf "1970-0-0" := by decide

/-! ## Helper lemmas on splitting -/

lemma splitOnChar_not_mem {c : Char} {l : Str} (h : c ∉ l) : splitOnChar c l = [l] := by
  induction l with
  | nil => rfl
  | cons x xs ih =>
    simp only [List.mem_cons, not_or] at h
    obtain ⟨h1, h2⟩ := h
    simp only [splitOnChar]
    rw [if_neg (fun e => h1 e.symm), ih h2]

lemma splitOnChar_append {c : Char} {k : Str} (t : Str) (h : c ∉ k) :
    splitOnChar c (k ++ c :: t) = k :: splitOnChar c t := by
  induction k with
  | nil => simp [splitOnChar]
  | cons x xs ih =>
    simp only [List.mem_cons, not_or] at h
    obtain ⟨h1, h2⟩ := h
    simp only [List.cons_append, splitOnChar, List.append_eq]
    rw [if_neg (fun e => h1 e.symm), ih h2]

lemma jsSplit2_key_value {k v : Str} (hk : ':' ∉ k) (hv : ':' ∉ v) :
    jsSplit2 (k ++ ':' :: v) = (k, some v) := by
  unfold jsSplit2
  rw [splitOnChar_append v hk, splitOnChar_not_mem hv]
  rfl

lemma jsSplit2_key_value_rest {k v : Str} (rest : Str) (hk : ':' ∉ k) (hv : ':' ∉ v) :
    jsSplit2 (k ++ ':' :: (v ++ ':' :: rest)) = (k, some v) := by
  unfold jsSplit2
  rw [splitOnChar_append _ hk, splitOnChar_append rest hv]
  rfl

lemma splitLines_cons_line {l : Str} (r : Str) (hn : '\n' ∉ l) (hr : '\r' ∉ l) :
    splitLines (l ++ '\n' :: r) = l :: splitLines r := by
  induction l with
  | nil => rfl
  | cons x xs ih =>
    simp only [List.mem_cons, not_or] at hn hr
    obtain ⟨hn1, hn2⟩ := hn
    obtain ⟨hr1, hr2⟩ := hr
    rw [List.cons_append, splitLines.eq_def]
    split
    · rename_i heq; exact absurd heq (by simp)
    · rename_i ys heq
      injection heq with h1 h2
      exact absurd h1.symm hn1
    · rename_i ys heq
      injection heq with h1 h2
      exact absurd h1.symm hr1
    · rename_i y ys h1 h2 heq
      injection heq with e1 e2
      subst e1
      rw [← e2, ih hn2 hr2]

lemma splitLines_single {l : Str} (hn : '\n' ∉ l) (hr : '\r' ∉ l) :
    splitLines l = [l] := by
  induction l with
  | nil => rfl
  | cons x xs ih =>
    simp only [List.mem_cons, not_or] at hn hr
    obtain ⟨hn1, hn2⟩ := hn
    obtain ⟨hr1, hr2⟩ := hr
    rw [splitLines.eq_def]
    split
    · rename_i heq; exact absurd heq (by simp)
    · rename_i ys heq
      injection heq with h1 h2
      exact absurd h1.symm hn1
    · rename_i ys heq
      injection heq with h1 h2
      exact absurd (h2 ▸ List.mem_cons_self '\n' ys) hn2
    · rename_i y ys h1 h2 heq
      injection heq with e1 e2
      subst e1
      rw [← e2, ih hn2 hr2]

/-! ## Helper lemmas on the 32-bit model -/

lemma toUint32_ofNat {k : Nat} (h : k < 4294967296) : toUint32 (k : Int) = k := by
  simp only [toUint32]
  rw [Int.emod_eq_of_lt (by positivity) (by exact_mod_cast h)]
  exact Int.toNat_ofNat k

lemma toInt32_ofNat {k : Nat} (h : k < 2147483648) : toInt32 (k : Int) = k := by
  have h32 : k < 4294967296 := lt_trans h (by norm_num)
  simp [toInt32, toUint32_ofNat h32, h]

lemma jsShr_ofNat {k : Nat} (h : k < 2147483648) (b : Int) (n : Nat)
    (hb : toUint32 b % 32 = n) : jsShr (k : Int) b = ((k >>> n : Nat) : Int) := by
  simp only [jsShr, toInt32_ofNat h, hb]
  rw [Nat.shiftRight_eq_div_pow]
  rw [show ((2 : Int) ^ n) = ((2 ^ n : Nat) : Int) by push_cast; ring]
  exact (Int.ofNat_fdiv k (2 ^ n)).symm

lemma jsBitAnd_ofNat {a : Nat} (ha : a < 4294967296) (m : Int) (mn : Nat)
    (hm : toUint32 m = mn) (hmn : mn < 2147483648) :
    jsBitAnd (a : Int) m = ((a &&& mn : Nat) : Int) := by
  have hand : a &&& mn < 2147483648 := lt_of_le_of_lt Nat.and_le_right hmn
  simp only [jsBitAnd, toUint32_ofNat ha, hm]
  exact toInt32_ofNat hand

lemma intStr_ofNat (n : Nat) : intStr (n : Int) = natStr n := by
  simp [intStr]

/-- C5: for every valid packed day-key (a nonnegative 32-bit value, as
`parseInt` of a `data-datekey` attribute produces), `keyToDate` renders
exactly `"{1970+((k>>9)&0xFF)}-{(k>>5)&0xF}-{k&0x1F}"` with the three
components as unpadded decimal integers. -/
theorem claim_C5_keyToDate_formula (k : Nat) (h : k < 2147483648) :
    keyToDate (k : Int) =
      natStr (1970 + ((k >>> 9) &&& 255)) ++
        '-' :: natStr ((k >>> 5) &&& 15) ++
        '-' :: natStr (k &&& 31) := by
  have h32 : k < 4294967296 := lt_trans h (by norm_num)
  have hshr9 : k >>> 9 < 4294967296 :=
    lt_of_le_of_lt (by rw [Nat.shiftRight_eq_div_pow]; exact Nat.div_le_self _ _) h32
  have hshr5 : k >>> 5 < 4294967296 :=
    lt_of_le_of_lt (by rw [Nat.shiftRight_eq_div_pow]; exact Nat.div_le_self _ _) h32
  simp only [keyToDate]
  rw [jsShr_ofNat h 9 9 (by decide), jsShr_ofNat h 5 5 (by decide),
    jsBitAnd_ofNat hshr9 255 255 (by decide) (by norm_num),
    jsBitAnd_ofNat hshr5 15 15 (by decide) (by norm_num),
    jsBitAnd_ofNat h32 31 31 (by decide) (by norm_num)]
  rw [show (1970 : Int) + ((k >>> 9 &&& 255 : Nat) : Int)
      = ((1970 + (k >>> 9 &&& 255) : Nat) : Int) by push_cast; ring]
  rw [intStr_ofNat, intStr_ofNat, intStr_ofNat]

/-- Witness for C5 at the concrete day-key 27695 (2024-1-15). -/
theorem claim_C5_keyToDate_formula_witness :
    keyToDate ((27695 : Nat) : Int) =
      natStr (1970 + (((27695 : Nat) >>> 9) &&& 255)) ++
        '-' :: natStr (((27695 : Nat) >>> 5) &&& 15) ++
        '-' :: natStr ((27695 : Nat) &&& 31) :=
  claim_C5_keyToDate_formula 27695 (by norm_num)

/-! ## C1: removal leaves the derived event cache stale -/


/-- C1: removing the only loaded calendar persists an empty
`loadedCalendars` but leaves the flattened `calendarEvents` cache stale
(still holding the removed calendar's event), so the derived-cache
invariant is broken after `removeCalendar`; the settings-form submit
handler's own save would have restored it. -/
theorem claim_C1_removeCalendar_breaks_cache_invariant :
    eventsCacheInvariant stC1
    ∧ (removeCalendar 0 stC1.loadedCalendars).1 = []
    ∧ (setLoadedCalendars stC1 (removeCalendar 0 stC1.loadedCalendars).2).loadedCalendars = []
    ∧ (setLoadedCalendars stC1 (removeCalendar 0 stC1.loadedCalendars).2).calendarEvents = [evC1]
    ∧ ¬ eventsCacheInvariant (setLoadedCalendars stC1 (removeCalendar 0 stC1.loadedCalendars).2)
    ∧ eventsCacheInvariant
        (saveSettings stC1.dayColors stC1.calendarColors
          (removeCalendar 0 stC1.loadedCalendars).1
          (setLoadedCalendars stC1 (removeCalendar 0 stC1.loadedCalendars).2)) := by
  unfold eventsCacheInvariant
  decide

/-! ## Helper lemmas on parseInt over digit strings -/

lemma not_space_of_isDigit {c : Char} (h : isDigit c = true) : isJsSpace c = false := by
  by_contra hs
  rw [Bool.not_eq_false] at hs
  simp only [isJsSpace, Bool.or_eq_true, beq_iff_eq] at hs
  rcases hs with ((((e | e) | e) | e) | e) | e <;> (subst e; exact absurd h (by decide))

lemma jsParseInt_digits {s : Str} (hne : s ≠ []) (hd : ∀ c ∈ s, isDigit c = true) :
    jsParseInt s = some ((digitsToNat s : Nat) : Int) := by
  obtain ⟨c, cs, rfl⟩ := List.exists_cons_of_ne_nil hne
  have hc : isDigit c = true := hd c (List.mem_cons_self c cs)
  have hparse : parseDigits (c :: cs) = some (digitsToNat (c :: cs)) := by
    unfold parseDigits
    rw [List.takeWhile_eq_self_iff.mpr hd]
    simp
  unfold jsParseInt
  rw [List.dropWhile_cons, not_space_of_isDigit hc]
  simp only [Bool.false_eq_true, if_false]
  split
  · rename_i rest heq
    injection heq with e1 e2
    subst e1
    exact absurd hc (by decide)
  · rename_i rest heq
    injection heq with e1 e2
    subst e1
    exact absurd hc (by decide)
  · rw [hparse]
    rfl

lemma renderNum_digits {s : Str} (hne : s ≠ []) (hd : ∀ c ∈ s, isDigit c = true) :
    renderNum (jsParseInt s) = natStr (digitsToNat s) := by
  rw [jsParseInt_digits hne hd]
  show intStr ((digitsToNat s : Nat) : Int) = _
  exact intStr_ofNat _

/-! ## C6: formatICSDate -/

/-- C6: for a string of length at least 8 made of decimal digits in its
first 8 characters, `formatICSDate` returns `"{Y}-{M}-{D}"` with the
three components parsed from offsets 0-3, 4-5, 6-7 and rendered as
unpadded decimals; the result depends only on the first 8 characters; an
absent input or a string shorter than 8 characters gives the empty
string. -/
theorem claim_C6_formatICSDate :
    (∀ s : Str, 8 ≤ s.length → (∀ c ∈ s.take 8, isDigit c = true) →
        formatICSDate (some s) =
          natStr (digitsToNat (s.take 4)) ++ '-' ::
            natStr (digitsToNat ((s.drop 4).take 2)) ++ '-' ::
              natStr (digitsToNat ((s.drop 6).take 2)))
    ∧ (∀ s : Str, formatICSDate (some s) = formatICSDate (some (s.take 8)))
    ∧ formatICSDate none = []
    ∧ (∀ s : Str, s.length < 8 → formatICSDate (some s) = []) := by
  refine ⟨?_, ?_, rfl, ?_⟩
  · intro s hlen hd
    have h4 : s.take 4 ≠ [] := by
      have hl : (s.take 4).length = 4 := by rw [List.length_take]; omega
      intro e; rw [e] at hl; simp at hl
    have hd4 : ∀ c ∈ s.take 4, isDigit c = true := by
      intro c hcmem
      apply hd
      have e : s.take 4 = (s.take 8).take 4 := by simp [List.take_take]
      rw [e] at hcmem
      exact List.mem_of_mem_take hcmem
    have h42 : (s.drop 4).take 2 ≠ [] := by
      have hl : ((s.drop 4).take 2).length = 2 := by
        rw [List.length_take, List.length_drop]; omega
      intro e; rw [e] at hl; simp at hl
    have hd42 : ∀ c ∈ (s.drop 4).take 2, isDigit c = true := by
      intro c hcmem
      apply hd
      have e1 : (s.drop 4).take 2 = ((s.drop 4).take 4).take 2 := by
        simp [List.take_take]
      have e2 : (s.take 8).drop 4 = (s.drop 4).take 4 := by
        simp [List.drop_take]
      rw [e1, ← e2] at hcmem
      exact List.mem_of_mem_drop (List.mem_of_mem_take hcmem)
    have h62 : (s.drop 6).take 2 ≠ [] := by
      have hl : ((s.drop 6).take 2).length = 2 := by
        rw [List.length_take, List.length_drop]; omega
      intro e; rw [e] at hl; simp at hl
    have hd62 : ∀ c ∈ (s.drop 6).take 2, isDigit c = true := by
      intro c hcmem
      apply hd
      have e2 : (s.take 8).drop 6 = (s.drop 6).take 2 := by
        simp [List.drop_take]
      rw [← e2] at hcmem
      exact List.mem_of_mem_drop hcmem
    show formatICSDate (some s) = _
    simp only [formatICSDate]
    rw [if_neg (show ¬ s.length < 8 by omega)]
    rw [renderNum_digits h4 hd4, renderNum_digits h42 hd42, renderNum_digits h62 hd62]
  · intro s
    by_cases hl : s.length < 8
    · simp only [formatICSDate]
      rw [if_pos hl, if_pos (show (s.take 8).length < 8 by rw [List.length_take]; omega)]
    · simp only [formatICSDate]
      rw [if_neg hl, if_neg (show ¬ (s.take 8).length < 8 by rw [List.length_take]; omega)]
      have e1 : (s.take 8).take 4 = s.take 4 := by simp [List.take_take]
      have e2 : ((s.take 8).drop 4).take 2 = (s.drop 4).take 2 := by
        simp [List.drop_take, List.take_take]
      have e3 : ((s.take 8).drop 6).take 2 = (s.drop 6).take 2 := by
        simp [List.drop_take, List.take_take]
      rw [e1, e2, e3]
  · intro s h
    simp only [formatICSDate]
    rw [if_pos h]

/-- Witness for C6 at concrete inputs. -/
theorem claim_C6_formatICSDate_witness :
    formatICSDate (some (strOf "20240115")) =
      natStr (digitsToNat ((strOf "20240115").take 4)) ++ '-' ::
        natStr (digitsToNat (((strOf "20240115").drop 4).take 2)) ++ '-' ::
          natStr (digitsToNat (((strOf "20240115").drop 6).take 2))
    ∧ formatICSDate (some (strOf "20240115x")) = formatICSDate (some ((strOf "20240115x").take 8))
    ∧ formatICSDate none = []
    ∧ formatICSDate (some (strOf "2024011")) = [] :=
  ⟨claim_C6_formatICSDate.1 (strOf "20240115") (by decide) (by decide),
   claim_C6_formatICSDate.2.1 (strOf "20240115x"),
   claim_C6_formatICSDate.2.2.1,
   claim_C6_formatICSDate.2.2.2 (strOf "2024011") (by decide)⟩

/-! ## C2: line splitting truncates at the second colon -/

/-- C2 counterexample: a calendar-name line whose value itself contains a
colon.  JavaScript `split(":", 2)` keeps only the first two fields of the
full split, so the stored title is `"My"`, not the full remainder
`"My:Cal"` after the first colon. -/
theorem claim_C2_counterexample :
    (parseICS (strOf "X-WR-CALNAME:My:Cal")).title = some (strOf "My")
    ∧ ¬ (parseICS (strOf "X-WR-CALNAME:My:Cal")).title = some (strOf "My:Cal") := by
  decide

/-- C2 amended: each line is split on colons and truncated to two fields,
so `key` is the text before the first colon and `value` is the text
between the first and second colons (everything after a second colon is
discarded); in particular an `X-WR-CALNAME` line whose value contains a
colon stores only the part before that colon as the title. -/
theorem claim_C2_amended (k v rest : Str) (hk : ':' ∉ k) (hv : ':' ∉ v)
    (hvn : '\n' ∉ v) (hvr : '\r' ∉ v) (hrn : '\n' ∉ rest) (hrr : '\r' ∉ rest) :
    jsSplit2 (k ++ ':' :: v) = (k, some v)
    ∧ jsSplit2 (k ++ ':' :: (v ++ ':' :: rest)) = (k, some v)
    ∧ (parseICS (strOf "X-WR-CALNAME" ++ ':' :: (v ++ ':' :: rest))).title = some v := by
  refine ⟨jsSplit2_key_value hk hv, jsSplit2_key_value_rest rest hk hv, ?_⟩
  have hA : '\n' ∉ strOf "X-WR-CALNAME" := by decide
  have hA' : '\r' ∉ strOf "X-WR-CALNAME" := by decide
  have hc : ¬ ('\n' = ':') := by decide
  have hc' : ¬ ('\r' = ':') := by decide
  have hline : '\n' ∉ strOf "X-WR-CALNAME" ++ ':' :: (v ++ ':' :: rest) := by
    simp [List.mem_append, List.mem_cons, hA, hc, hvn, hrn]
  have hline' : '\r' ∉ strOf "X-WR-CALNAME" ++ ':' :: (v ++ ':' :: rest) := by
    simp [List.mem_append, List.mem_cons, hA', hc', hvr, hrr]
  unfold parseICS parseLines
  rw [splitLines_single hline hline', List.foldl_cons, List.foldl_nil]
  simp only [parseLine]
  rw [jsSplit2_key_value_rest rest (by decide) hv]
  simp

/-- Witness for C2 amended at concrete inputs. -/
theorem claim_C2_amended_witness :
    jsSplit2 (strOf "SUMMARY" ++ ':' :: strOf "My") = (strOf "SUMMARY", some (strOf "My"))
    ∧ jsSplit2 (strOf "SUMMARY" ++ ':' :: (strOf "My" ++ ':' :: strOf "Cal")) =
        (strOf "SUMMARY", some (strOf "My"))
    ∧ (parseICS (strOf "X-WR-CALNAME" ++ ':' :: (strOf "My" ++ ':' :: strOf "Cal"))).title =
        some (strOf "My") :=
  claim_C2_amended (strOf "SUMMARY") (strOf "My") (strOf "Cal")
    (by decide) (by decide) (by decide) (by decide) (by decide) (by decide)

/-! ## C9: an unterminated event block is never emitted -/

lemma parseLine_events_of_ne_end (st : ParseState) (line : Str)
    (h : line ≠ strOf "END:VEVENT") : (parseLine st line).events = st.events := by
  simp only [parseLine]
  split_ifs <;>
    first
      | rfl
      | (cases st.current <;> rfl)

lemma parseLines_events_no_end (st : ParseState) (ls : List Str)
    (h : ∀ l ∈ ls, l ≠ strOf "END:VEVENT") : (parseLines st ls).events = st.events := by
  induction ls generalizing st with
  | nil => rfl
  | cons a as ih =>
    rw [parseLines, List.foldl_cons]
    rw [show List.foldl parseLine (parseLine st a) as = parseLines (parseLine st a) as from rfl]
    rw [ih (parseLine st a) (fun l hl => h l (List.mem_cons_of_mem a hl))]
    exact parseLine_events_of_ne_end st a (h a (List.mem_cons_self a as))

lemma parseLine_begin (st : ParseState) :
    parseLine st (strOf "BEGIN:VEVENT") = { st with current := some {} } := rfl

/-- C9: for every input whose line list opens an event block with
`BEGIN:VEVENT` that is never followed by an `END:VEVENT` line, the
accumulated event is never emitted (the events are exactly those already
collected before the unterminated block); in particular parsing
`"BEGIN:VEVENT\nSUMMARY:x\n"` yields no events. -/
theorem claim_C9_unterminated_event_dropped :
    (∀ (data : Str) (pre post : List Str),
        splitLines data = pre ++ strOf "BEGIN:VEVENT" :: post →
        (∀ l ∈ post, l ≠ strOf "END:VEVENT") →
        (parseICS data).events = (parseLines initCalendarState pre).events)
    ∧ (parseICS (strOf "BEGIN:VEVENT\nSUMMARY:x\n")).events = [] := by
  constructor
  · intro data pre post hsplit hpost
    unfold parseICS
    rw [hsplit]
    show (parseLines initCalendarState (pre ++ strOf "BEGIN:VEVENT" :: post)).events = _
    rw [parseLines, List.foldl_append, List.foldl_cons]
    rw [show List.foldl parseLine
          (parseLine (List.foldl parseLine initCalendarState pre) (strOf "BEGIN:VEVENT")) post
        = parseLines (parseLine (parseLines initCalendarState pre) (strOf "BEGIN:VEVENT")) post
        from rfl]
    rw [parseLines_events_no_end _ post hpost, parseLine_begin]
  · decide

/-- Witness for C9: the unterminated block `"BEGIN:VEVENT\nSUMMARY:x\n"`
contributes nothing beyond the (empty) prefix of the input. -/
theorem claim_C9_unterminated_event_dropped_witness :
    (parseICS (strOf "BEGIN:VEVENT\nSUMMARY:x\n")).events =
      (parseLines initCalendarState []).events :=
  claim_C9_unterminated_event_dropped.1 (strOf "BEGIN:VEVENT\nSUMMARY:x\n")
    [] [strOf "SUMMARY:x", []] (by decide) (by decide)

/-! ## C10: out-of-range removal is a no-op -/

/-- C10: removing a calendar at a negative or not-less-than-length index
leaves the loaded-calendar list unchanged and performs no storage write. -/
theorem claim_C10_removeCalendar_out_of_range (index : Int) (cals : List StoredCalendar)
    (h : index < 0 ∨ (cals.length : Int) ≤ index) :
    removeCalendar index cals = (cals, none) := by
  unfold removeCalendar
  rw [if_pos h]

/-- Witness for C10: index 1 on a one-element list. -/
theorem claim_C10_removeCalendar_out_of_range_witness :
    removeCalendar 1 [({ title := some (strOf "A"), events := [] } : StoredCalendar)] =
      ([{ title := some (strOf "A"), events := [] }], none) :=
  claim_C10_removeCalendar_out_of_range 1 _ (Or.inr (by decide))

/-! ## C3: color-resolution precedence -/


/-- C3 counterexample: with an entry for "A" present but holding the
empty string, the claim says the scan stops at the first matching event
("A") and returns its entry, but the code's truthiness test skips it and
returns calendar "B"'s color. -/
theorem claim_C3_counterexample :
    resolveColor wdC3 [] ccC3 evsC3 (strOf "2024-1-15") = some (strOf "red")
    ∧ resolveColorSpec wdC3 [] ccC3 evsC3 (strOf "2024-1-15") = some []
    ∧ resolveColor wdC3 [] ccC3 evsC3 (strOf "2024-1-15")
        ≠ resolveColorSpec wdC3 [] ccC3 evsC3 (strOf "2024-1-15") := by
  decide

lemma firstOverride_eq_find (cC : List (Str × Str)) (ds : Str) (evs : List ICSEvent) :
    firstOverride cC ds evs =
      match evs.find? (fun ev => formatICSDate ev.start == ds
          && jsTruthy (List.lookup (jsKey ev.calendarTitle) cC)) with
      | some ev => List.lookup (jsKey ev.calendarTitle) cC
      | none => none := by
  induction evs with
  | nil => rfl
  | cons ev rest ih =>
    by_cases hp : formatICSDate ev.start = ds
        ∧ jsTruthy (List.lookup (jsKey ev.calendarTitle) cC) = true
    · have hb : (formatICSDate ev.start == ds
          && jsTruthy (List.lookup (jsKey ev.calendarTitle) cC)) = true := by
        simp [hp.1, hp.2]
      rw [List.find?_cons_of_pos rest hb]
      simp only [firstOverride]
      rw [if_pos hp]
    · have hb : ¬ (formatICSDate ev.start == ds
          && jsTruthy (List.lookup (jsKey ev.calendarTitle) cC)) = true := by
        intro hcontra
        exact hp (by simpa [Bool.and_eq_true] using hcontra)
      rw [List.find?_cons_of_neg rest hb]
      simp only [firstOverride]
      rw [if_neg hp]
      exact ih

/-- C3 amended: color resolution returns the calendar color of the first
event in list order whose converted start date equals the target date and
whose `calendarTitle` has an entry with a nonempty color value in
`calendarColors`; otherwise `dayColors[weekday]` if present with a
nonempty value; otherwise none. -/
theorem claim_C3_amended (wd : Str → Str) (dC cC : List (Str × Str))
    (evs : List ICSEvent) (ds : Str) :
    resolveColor wd dC cC evs ds = resolveColorSpecTruthy wd dC cC evs ds := by
  unfold resolveColor resolveColorSpecTruthy
  rw [firstOverride_eq_find]
  cases h : evs.find? (fun ev => formatICSDate ev.start == ds
      && jsTruthy (List.lookup (jsKey ev.calendarTitle) cC)) with
  | none => rfl
  | some ev =>
    have hp := List.find?_some h
    have ht : jsTruthy (List.lookup (jsKey ev.calendarTitle) cC) = true :=
      (by simpa using hp : _ ∧ _).2
    dsimp only
    cases hl : List.lookup (jsKey ev.calendarTitle) cC with
    | none => rw [hl] at ht; exact absurd ht (by decide)
    | some x => rfl

/-! ## C7 and C8: the annotator pass -/

lemma applyCell_skip {wd : Str → Str} {dark : Bool} {dC cC : List (Str × Str)}
    {evs : List ICSEvent} {c : Cell} (h0 : (cellDateStr c).isEmpty = true) :
    applyCell wd dark dC cC evs c = c := by
  simp only [applyCell]
  rw [if_pos h0]

lemma applyCell_marked {wd : Str → Str} {dark : Bool} {dC cC : List (Str × Str)}
    {evs : List ICSEvent} {c : Cell} (h0 : (cellDateStr c).isEmpty = false)
    (h1 : jsTruthy (resolveColor wd dC cC evs (cellDateStr c)) = true)
    (h2 : c.marker = true) :
    applyCell wd dark dC cC evs c = c := by
  simp only [applyCell]
  rw [if_neg (by simp [h0]), if_pos h1, if_pos h2]

lemma applyCell_color {wd : Str → Str} {dark : Bool} {dC cC : List (Str × Str)}
    {evs : List ICSEvent} {c : Cell} (h0 : (cellDateStr c).isEmpty = false)
    (h1 : jsTruthy (resolveColor wd dC cC evs (cellDateStr c)) = true)
    (h2 : c.marker = false) :
    applyCell wd dark dC cC evs c =
      { c with marker := true,
               bg := (resolveColor wd dC cC evs (cellDateStr c)).getD [],
               opacity := if dark then strOf "0.7" else strOf "0.9" } := by
  simp only [applyCell]
  rw [if_neg (by simp [h0]), if_pos h1, if_neg (by simp [h2])]

lemma applyCell_clear {wd : Str → Str} {dark : Bool} {dC cC : List (Str × Str)}
    {evs : List ICSEvent} {c : Cell} (h0 : (cellDateStr c).isEmpty = false)
    (h1 : jsTruthy (resolveColor wd dC cC evs (cellDateStr c)) = false)
    (h2 : c.marker = true) :
    applyCell wd dark dC cC evs c = { c with bg := [], opacity := [], marker := false } := by
  simp only [applyCell]
  rw [if_neg (by simp [h0]), if_neg (by simp [h1]), if_pos h2]

lemma applyCell_plain {wd : Str → Str} {dark : Bool} {dC cC : List (Str × Str)}
    {evs : List ICSEvent} {c : Cell} (h0 : (cellDateStr c).isEmpty = false)
    (h1 : jsTruthy (resolveColor wd dC cC evs (cellDateStr c)) = false)
    (h2 : c.marker = false) :
    applyCell wd dark dC cC evs c = c := by
  simp only [applyCell]
  rw [if_neg (by simp [h0]), if_neg (by simp [h1]), if_neg (by simp [h2])]

lemma applyCell_idem (wd : Str → Str) (dark : Bool) (dC cC : List (Str × Str))
    (evs : List ICSEvent) (c : Cell) :
    applyCell wd dark dC cC evs (applyCell wd dark dC cC evs c)
      = applyCell wd dark dC cC evs c := by
  by_cases h0 : (cellDateStr c).isEmpty = true
  · rw [applyCell_skip h0, applyCell_skip h0]
  · have h0' : (cellDateStr c).isEmpty = false := Bool.eq_false_iff.mpr h0
    by_cases h1 : jsTruthy (resolveColor wd dC cC evs (cellDateStr c)) = true
    · by_cases h2 : c.marker = true
      · rw [applyCell_marked h0' h1 h2, applyCell_marked h0' h1 h2]
      · have h2' : c.marker = false := Bool.eq_false_iff.mpr h2
        rw [applyCell_color h0' h1 h2']
        exact applyCell_marked h0' h1 rfl
    · have h1' : jsTruthy (resolveColor wd dC cC evs (cellDateStr c)) = false :=
        Bool.eq_false_iff.mpr h1
      by_cases h2 : c.marker = true
      · rw [applyCell_clear h0' h1' h2]
        exact applyCell_plain h0' h1' rfl
      · have h2' : c.marker = false := Bool.eq_false_iff.mpr h2
        rw [applyCell_plain h0' h1' h2', applyCell_plain h0' h1' h2']

/-- C7: a second annotator pass with unchanged inputs changes nothing:
every cell already carrying the marker (or already reverted) is left
untouched, so the pass is idempotent on the whole cell list. -/
theorem claim_C7_annotator_idempotent (wd : Str → Str) (dark : Bool)
    (dC cC : List (Str × Str)) (evs : List ICSEvent) (cells : List Cell) :
    applyCustomColors wd dark dC cC evs (applyCustomColors wd dark dC cC evs cells)
      = applyCustomColors wd dark dC cC evs cells := by
  unfold applyCustomColors
  rw [List.map_map]
  exact List.map_eq_map_iff.mpr
    (fun c _ => applyCell_idem wd dark dC cC evs c)

/-- C8: a marked cell whose date resolves to no color is reverted (its
background and opacity cleared and the marker removed), and an unmarked
cell with no resolved color is left untouched. -/
theorem claim_C8_reversion (wd : Str → Str) (dark : Bool) (dC cC : List (Str × Str))
    (evs : List ICSEvent) (c : Cell) :
    (cellDateStr c ≠ [] → c.marker = true →
        resolveColor wd dC cC evs (cellDateStr c) = none →
        applyCell wd dark dC cC evs c = { c with bg := [], opacity := [], marker := false })
    ∧ (c.marker = false → resolveColor wd dC cC evs (cellDateStr c) = none →
        applyCell wd dark dC cC evs c = c) := by
  constructor
  · intro hne hm hres
    have h0 : (cellDateStr c).isEmpty = false := by
      cases hcd : cellDateStr c with
      | nil => exact absurd hcd hne
      | cons a l => rfl
    have h1 : jsTruthy (resolveColor wd dC cC evs (cellDateStr c)) = false := by
      rw [hres]; rfl
    exact applyCell_clear h0 h1 hm
  · intro hm hres
    have h1 : jsTruthy (resolveColor wd dC cC evs (cellDateStr c)) = false := by
      rw [hres]; rfl
    by_cases h0 : (cellDateStr c).isEmpty = true
    · exact applyCell_skip h0
    · exact applyCell_plain (Bool.eq_false_iff.mpr h0) h1 hm


/-- Witness for C8: with all color inputs removed, the marked cell is
reverted and the same cell without the marker is untouched. -/
theorem claim_C8_reversion_witness :
    applyCell wdC8 false [] [] [] cellC8 = { cellC8 with bg := [], opacity := [], marker := false }
    ∧ applyCell wdC8 false [] [] [] { cellC8 with marker := false, bg := [], opacity := [] }
        = { cellC8 with marker := false, bg := [], opacity := [] } :=
  ⟨(claim_C8_reversion wdC8 false [] [] [] cellC8).1 (by decide) (by decide) (by decide),
   (claim_C8_reversion wdC8 false [] [] [] { cellC8 with marker := false, bg := [], opacity := [] }).2
     (by decide) (by decide)⟩

/-! ## C4: round-trip over a hand-built ICS document -/


lemma not_mem_line {c : Char} {lit v : Str} (h1 : c ∉ lit) (h2 : c ≠ ':') (h3 : c ∉ v) :
    c ∉ lit ++ ':' :: v := by
  intro hm
  rcases List.mem_append.mp hm with h | h
  · exact h1 h
  · rcases List.mem_cons.mp h with e | h
    · exact h2 e
    · exact h3 h

lemma splitLines_join_lf (ls : List Str) (h : ∀ l ∈ ls, '\n' ∉ l ∧ '\r' ∉ l) :
    splitLines ((ls.map (fun l => l ++ ['\n'])).flatten) = ls ++ [[]] := by
  induction ls with
  | nil => rfl
  | cons a as ih =>
    simp only [List.map_cons, List.flatten_cons, List.append_assoc]
    rw [show (['\n'] : Str) ++ ((as.map (fun l => l ++ ['\n'])).flatten) =
          '\n' :: ((as.map (fun l => l ++ ['\n'])).flatten) from rfl]
    rw [splitLines_cons_line _ (h a (List.mem_cons_self a as)).1 (h a (List.mem_cons_self a as)).2]
    rw [ih (fun l hl => h l (List.mem_cons_of_mem a hl))]
    rfl

lemma icsDocLines_clean (t : Str) (fs : List (Str × Str × Str)) (ht : cleanStr t)
    (hf : ∀ f ∈ fs, cleanStr f.1 ∧ cleanStr f.2.1 ∧ cleanStr f.2.2) :
    ∀ l ∈ icsDocLines t fs, '\n' ∉ l ∧ '\r' ∉ l := by
  intro l hl
  simp only [icsDocLines, List.mem_cons] at hl
  rcases hl with rfl | hl
  · exact ⟨not_mem_line (by decide) (by decide) ht.2.1,
           not_mem_line (by decide) (by decide) ht.2.2⟩
  · obtain ⟨bl, hbl, hlbl⟩ := List.mem_flatten.mp hl
    obtain ⟨f, hfin, rfl⟩ := List.mem_map.mp hbl
    obtain ⟨⟨_, hn1, hr1⟩, ⟨_, hn2, hr2⟩, ⟨_, hn3, hr3⟩⟩ := hf f hfin
    simp only [blockLines, List.mem_cons, List.not_mem_nil, or_false] at hlbl
    rcases hlbl with rfl | rfl | rfl | rfl | rfl
    · exact ⟨by decide, by decide⟩
    · exact ⟨not_mem_line (by decide) (by decide) hn1,
             not_mem_line (by decide) (by decide) hr1⟩
    · exact ⟨not_mem_line (by decide) (by decide) hn2,
             not_mem_line (by decide) (by decide) hr2⟩
    · exact ⟨not_mem_line (by decide) (by decide) hn3,
             not_mem_line (by decide) (by decide) hr3⟩
    · exact ⟨by decide, by decide⟩

lemma parseLines_cons (st : ParseState) (a : Str) (ls : List Str) :
    parseLines st (a :: ls) = parseLines (parseLine st a) ls := rfl

lemma parseLines_append (st : ParseState) (l1 l2 : List Str) :
    parseLines st (l1 ++ l2) = parseLines (parseLines st l1) l2 :=
  List.foldl_append parseLine st l1 l2

lemma parseLine_empty (st : ParseState) : parseLine st [] = st := rfl

lemma parseLine_calname (st : ParseState) (v : Str) (hv : ':' ∉ v) :
    parseLine st (strOf "X-WR-CALNAME" ++ ':' :: v) = { st with title := some v } := by
  have hkv := jsSplit2_key_value (k := strOf "X-WR-CALNAME") (by decide) hv
  simp only [parseLine, hkv]
  rw [if_pos trivial]

lemma parseLine_dtstart (st : ParseState) (ev : ICSEvent) (v : Str) (hv : ':' ∉ v)
    (hcur : st.current = some ev) :
    parseLine st (strOf "DTSTART;VALUE=DATE" ++ ':' :: v) =
      { st with current := some { ev with start := some v } } := by
  have hkv := jsSplit2_key_value (k := strOf "DTSTART;VALUE=DATE") (by decide) hv
  have hB : ¬ (strOf "DTSTART;VALUE=DATE" ++ ':' :: v = strOf "BEGIN:VEVENT") := by
    intro e
    injection (show 'D' :: (strOf "TSTART;VALUE=DATE" ++ ':' :: v)
        = 'B' :: strOf "EGIN:VEVENT" from e) with h1 h2
    exact absurd h1 (by decide)
  have hE : ¬ (strOf "DTSTART;VALUE=DATE" ++ ':' :: v = strOf "END:VEVENT") := by
    intro e
    injection (show 'D' :: (strOf "TSTART;VALUE=DATE" ++ ':' :: v)
        = 'E' :: strOf "ND:VEVENT" from e) with h1 h2
    exact absurd h1 (by decide)
  simp only [parseLine, hkv]
  rw [if_pos trivial, hcur, if_neg (by decide), if_neg hB, if_neg hE]

lemma parseLine_dtend (st : ParseState) (ev : ICSEvent) (v : Str) (hv : ':' ∉ v)
    (hcur : st.current = some ev) :
    parseLine st (strOf "DTEND;VALUE=DATE" ++ ':' :: v) =
      { st with current := some { ev with «end» := some v } } := by
  have hkv := jsSplit2_key_value (k := strOf "DTEND;VALUE=DATE") (by decide) hv
  have hB : ¬ (strOf "DTEND;VALUE=DATE" ++ ':' :: v = strOf "BEGIN:VEVENT") := by
    intro e
    injection (show 'D' :: (strOf "TEND;VALUE=DATE" ++ ':' :: v)
        = 'B' :: strOf "EGIN:VEVENT" from e) with h1 h2
    exact absurd h1 (by decide)
  have hE : ¬ (strOf "DTEND;VALUE=DATE" ++ ':' :: v = strOf "END:VEVENT") := by
    intro e
    injection (show 'D' :: (strOf "TEND;VALUE=DATE" ++ ':' :: v)
        = 'E' :: strOf "ND:VEVENT" from e) with h1 h2
    exact absurd h1 (by decide)
  simp only [parseLine, hkv]
  rw [if_pos trivial, hcur, if_neg (by decide), if_neg hB, if_neg hE, if_neg (by decide)]

lemma parseLine_summary (st : ParseState) (ev : ICSEvent) (v : Str) (hv : ':' ∉ v)
    (hcur : st.current = some ev) :
    parseLine st (strOf "SUMMARY" ++ ':' :: v) =
      { st with current := some { ev with name := some v } } := by
  have hkv := jsSplit2_key_value (k := strOf "SUMMARY") (by decide) hv
  have hB : ¬ (strOf "SUMMARY" ++ ':' :: v = strOf "BEGIN:VEVENT") := by
    intro e
    injection (show 'S' :: (strOf "UMMARY" ++ ':' :: v)
        = 'B' :: strOf "EGIN:VEVENT" from e) with h1 h2
    exact absurd h1 (by decide)
  have hE : ¬ (strOf "SUMMARY" ++ ':' :: v = strOf "END:VEVENT") := by
    intro e
    injection (show 'S' :: (strOf "UMMARY" ++ ':' :: v)
        = 'E' :: strOf "ND:VEVENT" from e) with h1 h2
    exact absurd h1 (by decide)
  simp only [parseLine, hkv]
  rw [if_pos trivial, hcur, if_neg (by decide), if_neg hB, if_neg hE, if_neg (by decide),
    if_neg (by decide)]

lemma parseLine_end_push (st : ParseState) (ev : ICSEvent) (hcur : st.current = some ev) :
    parseLine st (strOf "END:VEVENT") =
      { st with events := st.events ++ [{ ev with calendarTitle := st.title }],
                current := none } := by
  simp only [parseLine]
  rw [if_pos trivial, hcur, if_neg (by decide), if_neg (by decide)]

lemma parseLines_block (st : ParseState) (f : Str × Str × Str)
    (hc : cleanStr f.1 ∧ cleanStr f.2.1 ∧ cleanStr f.2.2) :
    parseLines st (blockLines f) =
      { st with current := none, events := st.events ++ [evOf st.title f] } := by
  obtain ⟨⟨hc1, _, _⟩, ⟨hc2, _, _⟩, ⟨hc3, _, _⟩⟩ := hc
  show parseLines st
    [strOf "BEGIN:VEVENT",
     strOf "DTSTART;VALUE=DATE" ++ ':' :: f.1,
     strOf "DTEND;VALUE=DATE" ++ ':' :: f.2.1,
     strOf "SUMMARY" ++ ':' :: f.2.2,
     strOf "END:VEVENT"] = _
  rw [parseLines_cons, parseLine_begin]
  rw [parseLines_cons, parseLine_dtstart _ _ _ hc1 rfl]
  rw [parseLines_cons, parseLine_dtend _ _ _ hc2 rfl]
  rw [parseLines_cons, parseLine_summary _ _ _ hc3 rfl]
  rw [parseLines_cons, parseLine_end_push _ _ rfl]
  rfl

lemma parseLines_blocks (fs : List (Str × Str × Str))
    (hc : ∀ f ∈ fs, cleanStr f.1 ∧ cleanStr f.2.1 ∧ cleanStr f.2.2) (st : ParseState) :
    parseLines st ((fs.map blockLines).flatten) =
      { st with current := if fs = [] then st.current else none,
                events := st.events ++ fs.map (evOf st.title) } := by
  induction fs generalizing st with
  | nil => simp [parseLines]
  | cons f rest ih =>
    simp only [List.map_cons, List.flatten_cons]
    rw [parseLines_append, parseLines_block st f (hc f (List.mem_cons_self f rest))]
    rw [ih (fun g hg => hc g (List.mem_cons_of_mem f hg)) _]
    cases rest <;> simp

/-- C4: parsing the hand-built ICS document with one `X-WR-CALNAME` line
followed by N VEVENT blocks (each a `DTSTART;VALUE=DATE`, a
`DTEND;VALUE=DATE` and a `SUMMARY` line, with colon- and
linebreak-free field values) yields exactly N events in file order, each
stamped with the calendar title and carrying the corresponding start, end
and name. -/
theorem claim_C4_roundtrip (t : Str) (fs : List (Str × Str × Str)) (ht : cleanStr t)
    (hf : ∀ f ∈ fs, cleanStr f.1 ∧ cleanStr f.2.1 ∧ cleanStr f.2.2) :
    (parseICS (icsDoc t fs)).events = fs.map (evOf (some t))
    ∧ (parseICS (icsDoc t fs)).title = some t := by
  have hsplit : splitLines (icsDoc t fs) = icsDocLines t fs ++ [[]] :=
    splitLines_join_lf (icsDocLines t fs) (icsDocLines_clean t fs ht hf)
  unfold parseICS
  rw [hsplit]
  rw [show icsDocLines t fs ++ [[]] =
        (strOf "X-WR-CALNAME" ++ ':' :: t) :: ((fs.map blockLines).flatten ++ [[]]) from by
      simp [icsDocLines]]
  rw [parseLines_cons, parseLine_calname initCalendarState t ht.1]
  rw [parseLines_append, parseLines_blocks fs hf _]
  constructor <;> cases fs <;> rfl

/-- Witness for C4: one block with concrete fields. -/
theorem claim_C4_roundtrip_witness :
    (parseICS (icsDoc (strOf "Work") [(strOf "20240115", strOf "20240116", strOf "Standup")])).events
       = [(strOf "20240115", strOf "20240116", strOf "Standup")].map (evOf (some (strOf "Work")))
    ∧ (parseICS (icsDoc (strOf "Work") [(strOf "20240115", strOf "20240116", strOf "Standup")])).title
       = some (strOf "Work") :=
  claim_C4_roundtrip (strOf "Work") [(strOf "20240115", strOf "20240116", strOf "Standup")]
    (by decide) (by decide)

end CalColor
